import Mathlib

/-!
Verification of the pytube stream-resolution pipeline (`pytube/api.py`)
against its natural-language specification.

Strings are embedded as `List Char` (`Str`).  Python functions are
translated into executable Lean definitions; Python exceptions become
explicit error constructors; external collaborators (network fetch,
`json.loads`, the `jsinterp` module, `safe_filename`, the `Video`
container from `models.py`) are oracles/definitions modelled from the
spec, because their code is not part of the two sources under review.
-/

namespace Pytube

abbrev Str := List Char

/-- Embedding of Python `str.split(sep)` for a single-character
separator: `n` separators produce `n + 1` (possibly empty) parts. -/
def splitOnChar (sep : Char) : Str → List Str
  | [] => [[]]
  | c :: rest =>
    match splitOnChar sep rest with
    | [] => [[]]
    | p :: ps => if c = sep then [] :: p :: ps else (c :: p) :: ps

/-- Value of an ASCII hex digit, `none` for other characters. -/
def hexVal (c : Char) : Option Nat :=
  if '0' ≤ c ∧ c ≤ '9' then some (c.toNat - '0'.toNat)
  else if 'a' ≤ c ∧ c ≤ 'f' then some (c.toNat - 'a'.toNat + 10)
  else if 'A' ≤ c ∧ c ≤ 'F' then some (c.toNat - 'A'.toNat + 10)
  else none

/-- Embedding of `urllib.unquote` at the byte/char level: every `%XX`
hex escape is replaced by the character with that code, anything else
is copied through. -/
def unquote : Str → Str
  | [] => []
  | '%' :: h1 :: h2 :: rest =>
    match hexVal h1, hexVal h2 with
    | some a, some b => Char.ofNat (16 * a + b) :: unquote rest
    | _, _ => '%' :: unquote (h1 :: h2 :: rest)
  | c :: rest => c :: unquote rest

/-- Association-list embedding of a Python `dict` from field name to
list of values. -/
abbrev Dct := List (Str × List Str)

/-- The initial dictionary of `YouTube._parse_stream_map`: the six known
stream-map fields, each mapped to an empty list. -/
def initialDct : Dct :=
  [("itag".toList, []), ("url".toList, []), ("quality".toList, []),
   ("fallback_host".toList, []), ("s".toList, []), ("type".toList, [])]

/-- Embedding of `dct.get(key, []).append(value)`: if `key` is present
its list is extended in place; otherwise the value is appended to a
fresh temporary list that is immediately discarded, so the dictionary
is unchanged. -/
def dctAppend (dct : Dct) (key : Str) (v : Str) : Dct :=
  dct.map (fun p => if p.1 = key then (p.1, p.2 ++ [v]) else p)

/-- One iteration of the inner loop of `_parse_stream_map`:
`key, value = kv.split("=")` (a `ValueError`, i.e. `none`, unless the
split yields exactly two parts) followed by
`dct.get(key, []).append(unquote(value))`. -/
def applyKV (dct : Dct) (kv : Str) : Option Dct :=
  match splitOnChar '=' kv with
  | [key, value] => some (dctAppend dct key (unquote value))
  | _ => none

/-- The inner loop of `_parse_stream_map` over the `&`-split parameters
of one segment. -/
def applyKVs : Dct → List Str → Option Dct
  | dct, [] => some dct
  | dct, kv :: rest =>
    match applyKV dct kv with
    | some dct' => applyKVs dct' rest
    | none => none

/-- The outer loop of `_parse_stream_map` over the `,`-split segments. -/
def applySegments : Dct → List Str → Option Dct
  | dct, [] => some dct
  | dct, seg :: rest =>
    match applyKVs dct (splitOnChar '&' seg) with
    | some dct' => applySegments dct' rest
    | none => none

/-- Embedding of `YouTube._parse_stream_map`.  `none` models the
uncaught `ValueError` raised when a `key=value` sub-segment does not
split into exactly two parts. -/
def parse_stream_map (blob : Str) : Option Dct :=
  applySegments initialDct (splitOnChar ',' blob)

/-- The values that one `key=value` sub-segment contributes to field
`f`: its unquoted value when its key is `f`, nothing otherwise. -/
def kvValues (f : Str) (kv : Str) : List Str :=
  match splitOnChar '=' kv with
  | [key, value] => if key = f then [unquote value] else []
  | _ => []

/-- The values that one segment contributes to field `f`: for each
`key=value` sub-segment whose key is `f`, the unquoted value, in
sub-segment order.  This is the specification-side description of a
segment used to state order preservation. -/
def segmentValues (f : Str) (seg : Str) : List Str :=
  (splitOnChar '&' seg).flatMap (kvValues f)

/-- Embedding of Python `dct[key]` / `dct.get(key)` on the stream-map
dictionary: the value of the first pair whose key matches. -/
def dctLookup (f : Str) : Dct → Option (List Str)
  | [] => none
  | (k, vs) :: rest => if k = f then some vs else dctLookup f rest

theorem dctAppend_cons (k : Str) (vs : List Str) (rest : Dct) (key v : Str) :
    dctAppend ((k, vs) :: rest) key v =
      (if k = key then (k, vs ++ [v]) else (k, vs)) :: dctAppend rest key v := by
  by_cases h : k = key <;> simp [dctAppend, h]

theorem dctLookup_dctAppend (dct : Dct) (key v f : Str) :
    dctLookup f (dctAppend dct key v) =
      (dctLookup f dct).map (fun vs => vs ++ if key = f then [v] else []) := by
  induction dct with
  | nil => simp [dctAppend, dctLookup]
  | cons p rest ih =>
    obtain ⟨k, vs⟩ := p
    rw [dctAppend_cons]
    by_cases hkk : k = key
    · rw [if_pos hkk]
      by_cases hk : k = f
      · subst hkk; subst hk
        simp [dctLookup]
      · simp [dctLookup, hk, ih]
    · rw [if_neg hkk]
      by_cases hk : k = f
      · subst hk
        simp [dctLookup, Ne.symm hkk]
      · simp [dctLookup, hk, ih]

theorem dctLookup_applyKV {dct dct' : Dct} {kv : Str} (f : Str)
    (h : applyKV dct kv = some dct') :
    dctLookup f dct' = (dctLookup f dct).map (fun vs => vs ++ kvValues f kv) := by
  unfold applyKV at h
  cases hsplit : splitOnChar '=' kv with
  | nil => rw [hsplit] at h; exact absurd h (by simp)
  | cons a tl =>
    cases tl with
    | nil => rw [hsplit] at h; exact absurd h (by simp)
    | cons b tl2 =>
      cases tl2 with
      | nil =>
        rw [hsplit] at h
        simp only [Option.some_inj] at h
        subst h
        simp only [kvValues, hsplit]
        exact dctLookup_dctAppend dct a (unquote b) f
      | cons c tl3 => rw [hsplit] at h; exact absurd h (by simp)

theorem dctLookup_applyKVs {kvs : List Str} :
    ∀ {dct dct' : Dct} (f : Str), applyKVs dct kvs = some dct' →
      dctLookup f dct' =
        (dctLookup f dct).map (fun vs => vs ++ kvs.flatMap (kvValues f)) := by
  induction kvs with
  | nil =>
    intro dct dct' f h
    simp only [applyKVs, Option.some_inj] at h
    subst h
    cases dctLookup f dct <;> simp
  | cons kv rest ih =>
    intro dct dct' f h
    simp only [applyKVs] at h
    cases h1 : applyKV dct kv with
    | none => rw [h1] at h; exact absurd h (by simp)
    | some d1 =>
      rw [h1] at h
      rw [ih f h, dctLookup_applyKV f h1]
      cases dctLookup f dct <;> simp

theorem dctLookup_applySegments {segs : List Str} :
    ∀ {dct dct' : Dct} (f : Str), applySegments dct segs = some dct' →
      dctLookup f dct' =
        (dctLookup f dct).map (fun vs => vs ++ segs.flatMap (segmentValues f)) := by
  induction segs with
  | nil =>
    intro dct dct' f h
    simp only [applySegments, Option.some_inj] at h
    subst h
    cases dctLookup f dct <;> simp
  | cons seg rest ih =>
    intro dct dct' f h
    simp only [applySegments] at h
    cases h1 : applyKVs dct (splitOnChar '&' seg) with
    | none => rw [h1] at h; exact absurd h (by simp)
    | some d1 =>
      rw [h1] at h
      rw [ih f h, dctLookup_applyKVs f h1]
      cases dctLookup f dct <;> simp [segmentValues]

theorem keys_dctAppend (dct : Dct) (key v : Str) :
    (dctAppend dct key v).map Prod.fst = dct.map Prod.fst := by
  induction dct with
  | nil => rfl
  | cons p rest ih =>
    obtain ⟨k, vs⟩ := p
    rw [dctAppend_cons]
    by_cases h : k = key <;> simp [h, ih]

theorem keys_applyKV {dct dct' : Dct} {kv : Str} (h : applyKV dct kv = some dct') :
    dct'.map Prod.fst = dct.map Prod.fst := by
  unfold applyKV at h
  cases hsplit : splitOnChar '=' kv with
  | nil => rw [hsplit] at h; exact absurd h (by simp)
  | cons a tl =>
    cases tl with
    | nil => rw [hsplit] at h; exact absurd h (by simp)
    | cons b tl2 =>
      cases tl2 with
      | nil =>
        rw [hsplit] at h
        simp only [Option.some_inj] at h
        subst h
        exact keys_dctAppend dct a (unquote b)
      | cons c tl3 => rw [hsplit] at h; exact absurd h (by simp)

theorem keys_applyKVs {kvs : List Str} :
    ∀ {dct dct' : Dct}, applyKVs dct kvs = some dct' →
      dct'.map Prod.fst = dct.map Prod.fst := by
  induction kvs with
  | nil =>
    intro dct dct' h
    simp only [applyKVs, Option.some_inj] at h
    subst h; rfl
  | cons kv rest ih =>
    intro dct dct' h
    simp only [applyKVs] at h
    cases h1 : applyKV dct kv with
    | none => rw [h1] at h; exact absurd h (by simp)
    | some d1 =>
      rw [h1] at h
      rw [ih h, keys_applyKV h1]

theorem keys_applySegments {segs : List Str} :
    ∀ {dct dct' : Dct}, applySegments dct segs = some dct' →
      dct'.map Prod.fst = dct.map Prod.fst := by
  induction segs with
  | nil =>
    intro dct dct' h
    simp only [applySegments, Option.some_inj] at h
    subst h; rfl
  | cons seg rest ih =>
    intro dct dct' h
    simp only [applySegments] at h
    cases h1 : applyKVs dct (splitOnChar '&' seg) with
    | none => rw [h1] at h; exact absurd h (by simp)
    | some d1 =>
      rw [h1] at h
      rw [ih h, keys_applyKVs h1]

/-- C1: for every well-formed encoded stream-map blob (one on which the
decoder succeeds) and every known stream-map field, the decoded value
sequence of that field is exactly the concatenation, in segment order,
of the values that each comma-separated segment carries for that field.
In particular the i-th value of a field comes from the i-th segment
carrying that field, so one decoded column entry exists per segment and
segment order is preserved. -/
theorem parse_stream_map_segment_order (blob : Str) (dct : Dct) (f : Str)
    (h : parse_stream_map blob = some dct) (hf : f ∈ initialDct.map Prod.fst) :
    dctLookup f dct = some ((splitOnChar ',' blob).flatMap (segmentValues f)) := by
  have h0 : dctLookup f initialDct = some [] := by
    fin_cases hf <;> rfl
  unfold parse_stream_map at h
  rw [dctLookup_applySegments f h, h0]
  rfl

/-- Witness for `parse_stream_map_segment_order` at the concrete blob
`"itag=22&url=A,itag=18&url=B"` and the field `"itag"`. -/
theorem parse_stream_map_segment_order_witness :
    ∃ dct, parse_stream_map ("itag=22&url=A,itag=18&url=B".toList) = some dct ∧
      dctLookup ("itag".toList) dct =
        some ((splitOnChar ',' ("itag=22&url=A,itag=18&url=B".toList)).flatMap
          (segmentValues ("itag".toList))) :=
  ⟨(parse_stream_map ("itag=22&url=A,itag=18&url=B".toList)).getD initialDct,
    by decide,
    parse_stream_map_segment_order ("itag=22&url=A,itag=18&url=B".toList) _ _
      (by decide) (by decide)⟩

/-- C5 counterexample: on the blob `"foo=1&itag=2"`, whose first
sub-segment carries the unknown key `"foo"`, the decoder succeeds but
its output does not contain the key `"foo"` at all (the value `"1"` is
appended to a discarded temporary list), while the known key `"itag"`
keeps its value.  So an unknown key is dropped, not preserved. -/
theorem parse_stream_map_drops_unknown_key :
    ∃ dct, parse_stream_map ("foo=1&itag=2".toList) = some dct ∧
      dctLookup ("foo".toList) dct = none ∧
      dctLookup ("itag".toList) dct = some ["2".toList] := by
  refine ⟨(parse_stream_map ("foo=1&itag=2".toList)).getD initialDct, ?_, ?_, ?_⟩ <;> decide

/-- C5 amended: the decoder's output always has exactly the six known
stream-map keys (`itag`, `url`, `quality`, `fallback_host`, `s`,
`type`), in that order; a sub-segment whose key is unknown is silently
discarded rather than preserved. -/
theorem parse_stream_map_known_keys_only (blob : Str) (dct : Dct)
    (h : parse_stream_map blob = some dct) :
    dct.map Prod.fst = initialDct.map Prod.fst := by
  unfold parse_stream_map at h
  exact keys_applySegments h

/-- Witness for `parse_stream_map_known_keys_only` at the concrete blob
`"foo=1&itag=2"`. -/
theorem parse_stream_map_known_keys_only_witness :
    ∃ dct, parse_stream_map ("foo=1&itag=2".toList) = some dct ∧
      dct.map Prod.fst = initialDct.map Prod.fst :=
  ⟨(parse_stream_map ("foo=1&itag=2".toList)).getD initialDct, by decide,
    parse_stream_map_known_keys_only ("foo=1&itag=2".toList) _ (by decide)⟩

/-! ## `YouTube._get_json_offset`: the bracket-balance scanner -/

/-- Result of `_get_json_offset`: a returned offset, the
`PytubeError("Unable to determine json offset.")` raised by the
`for`-`else` clause, or the `IndexError` raised by `brackets.pop()` on
an empty list. -/
inductive OffsetResult where
  | ok (n : Nat)
  | pytubeError
  | indexError
deriving Repr, DecidableEq

/-- The scanning loop of `_get_json_offset`: `brackets` is the stack of
expected closing braces, `idx` the current `enumerate` index.  On `'{'`
a `'}'` is pushed; on `'}'` the stack is popped (`IndexError` when
empty) and the loop breaks with `index + idx` (`index` is the constant
`1`) when the stack becomes empty; if the text ends without a break the
`for`-`else` clause raises. -/
def get_json_offset_loop (brackets : List Char) (idx : Nat) : Str → OffsetResult
  | [] => .pytubeError
  | ch :: rest =>
    if ch = '{' then get_json_offset_loop ('}' :: brackets) (idx + 1) rest
    else if ch = '}' then
      match brackets with
      | [] => .indexError
      | [_] => .ok (1 + idx)
      | _ :: bs => get_json_offset_loop bs (idx + 1) rest
    else get_json_offset_loop brackets (idx + 1) rest

/-- Embedding of `YouTube._get_json_offset`. -/
def get_json_offset (html : Str) : OffsetResult :=
  get_json_offset_loop [] 0 html

/-- The contribution of one character to the brace depth. -/
def braceDelta (c : Char) : Int :=
  if c = '{' then 1 else if c = '}' then -1 else 0

/-- Total brace depth change over a string. -/
def braceSum (s : Str) : Int := (s.map braceDelta).sum

theorem braceSum_nil : braceSum [] = 0 := rfl

theorem braceSum_cons (c : Char) (s : Str) :
    braceSum (c :: s) = braceDelta c + braceSum s := by
  simp [braceSum]

/-- A single balanced brace expression: starts with `'{'`, its total
brace depth change is zero, and the depth stays positive on every
proper non-empty prefix (so the final `'}'` is the one matching the
opening `'{'`). -/
def BalancedBrace (B : Str) : Prop :=
  B.head? = some '{' ∧ braceSum B = 0 ∧
    ∀ i, i < B.length → 0 < i → 0 < braceSum (B.take i)

/-- The scan never terminates early: every `'}'` occurs at depth at
least two, so the pop neither underflows nor empties the stack, and the
loop runs off the end of the text. -/
def NeverEmpties (html : Str) : Prop :=
  ∀ i, i < html.length → html[i]? = some '}' → 2 ≤ braceSum (html.take i)

theorem braceDelta_open : braceDelta '{' = 1 := rfl

theorem braceDelta_close : braceDelta '}' = -1 := rfl

theorem loop_closes (rest : Str) : ∀ (T : Str) (brackets : List Char) (idx : Nat),
    brackets ≠ [] →
    braceSum rest = -(brackets.length : Int) →
    (∀ i, i < rest.length → 0 < i → -(brackets.length : Int) < braceSum (rest.take i)) →
    get_json_offset_loop brackets idx (rest ++ T) = .ok (idx + rest.length) := by
  induction rest with
  | nil =>
    intro T brackets idx hne hsum _
    rw [braceSum_nil] at hsum
    have hlen : (0 : Int) ≤ (brackets.length : Int) := Int.natCast_nonneg _
    have : brackets.length = 0 := by omega
    exact absurd (List.length_eq_zero.mp this) hne
  | cons c rest' ih =>
    intro T brackets idx hne hsum hpre
    rw [braceSum_cons] at hsum
    by_cases hc : c = '{'
    · subst hc
      rw [braceDelta_open] at hsum
      show get_json_offset_loop brackets idx ('{' :: (rest' ++ T)) = _
      simp only [get_json_offset_loop, if_true, if_false]
      have h1 : braceSum rest' = -((('}' :: brackets).length : Int)) := by
        simp only [List.length_cons]
        push_cast
        linarith
      have h2 : ∀ i, i < rest'.length → 0 < i →
          -((('}' :: brackets).length : Int)) < braceSum (rest'.take i) := by
        intro i hi _
        have hp := hpre (i + 1) (by simpa using hi) (by omega)
        rw [List.take_succ_cons, braceSum_cons, braceDelta_open] at hp
        simp only [List.length_cons]
        push_cast
        linarith
      rw [ih T ('}' :: brackets) (idx + 1) (by simp) h1 h2]
      simp only [List.length_cons]
      congr 1
      omega
    · by_cases hc2 : c = '}'
      · subst hc2
        rw [braceDelta_close] at hsum
        have hne1 : ('}' : Char) ≠ '{' := by decide
        match brackets, hne, hsum, hpre with
        | [b], _, hsum, hpre =>
          -- the pop empties the stack: the loop breaks here, so the
          -- remaining text must be empty
          have hrest : rest' = [] := by
            by_contra hne2
            have hlen : 0 < rest'.length := List.length_pos.mpr hne2
            have hp := hpre 1 (by simp only [List.length_cons]; omega) (by omega)
            rw [List.take_succ_cons, List.take_zero, braceSum_cons,
              braceSum_nil, braceDelta_close] at hp
            simp only [List.length_cons, List.length_nil] at hp
            norm_num at hp
          subst hrest
          show get_json_offset_loop [b] idx ('}' :: T) = _
          simp only [get_json_offset_loop, if_true, if_false]
          simp [Nat.add_comm]
        | b1 :: b2 :: bs, _, hsum, hpre =>
          show get_json_offset_loop (b1 :: b2 :: bs) idx ('}' :: (rest' ++ T)) = _
          simp only [get_json_offset_loop, if_true, if_false]
          have h1 : braceSum rest' = -(((b2 :: bs).length : Int)) := by
            simp only [List.length_cons] at hsum ⊢
            push_cast at hsum ⊢
            linarith
          have h2 : ∀ i, i < rest'.length → 0 < i →
              -(((b2 :: bs).length : Int)) < braceSum (rest'.take i) := by
            intro i hi _
            have hp := hpre (i + 1) (by simpa using hi) (by omega)
            rw [List.take_succ_cons, braceSum_cons, braceDelta_close] at hp
            simp only [List.length_cons] at hp ⊢
            push_cast at hp ⊢
            linarith
          rw [if_neg hne1, ih T (b2 :: bs) (idx + 1) (by simp) h1 h2]
          simp only [List.length_cons]
          congr 1
          omega
      · show get_json_offset_loop brackets idx (c :: (rest' ++ T)) = _
        simp only [get_json_offset_loop]
        rw [if_neg hc, if_neg hc2]
        have hdelta : braceDelta c = 0 := by simp [braceDelta, hc, hc2]
        rw [hdelta] at hsum
        have h2 : ∀ i, i < rest'.length → 0 < i →
            -((brackets.length : Int)) < braceSum (rest'.take i) := by
          intro i hi _
          have hp := hpre (i + 1) (by simpa using hi) (by omega)
          rw [List.take_succ_cons, braceSum_cons, hdelta] at hp
          linarith
        rw [ih T brackets (idx + 1) hne (by linarith) h2]
        simp only [List.length_cons]
        congr 1
        omega


theorem loop_never_empties (html : Str) : ∀ (brackets : List Char) (idx : Nat),
    (∀ i, i < html.length → html[i]? = some '}' →
      2 ≤ (brackets.length : Int) + braceSum (html.take i)) →
    get_json_offset_loop brackets idx html = .pytubeError := by
  induction html with
  | nil => intro brackets idx _; rfl
  | cons c rest ih =>
    intro brackets idx h
    by_cases hc : c = '{'
    · subst hc
      simp only [get_json_offset_loop, if_true, if_false]
      apply ih
      intro i hi hget
      have hp := h (i + 1) (by simpa using hi) (by simpa using hget)
      rw [List.take_succ_cons, braceSum_cons, braceDelta_open] at hp
      simp only [List.length_cons]
      push_cast at hp ⊢
      linarith
    · by_cases hc2 : c = '}'
      · subst hc2
        have hne1 : ('}' : Char) ≠ '{' := by decide
        have h0 := h 0 (by simp) (by simp)
        rw [List.take_zero, braceSum_nil] at h0
        match brackets, h0 with
        | b1 :: b2 :: bs, _ =>
          simp only [get_json_offset_loop, if_true, if_false]
          rw [if_neg hne1]
          apply ih
          intro i hi hget
          have hp := h (i + 1) (by simpa using hi) (by simpa using hget)
          rw [List.take_succ_cons, braceSum_cons, braceDelta_close] at hp
          simp only [List.length_cons] at hp ⊢
          push_cast at hp ⊢
          linarith
        | [], h0 => simp at h0
        | [b], h0 => simp at h0
      · simp only [get_json_offset_loop]
        rw [if_neg hc, if_neg hc2]
        apply ih
        intro i hi hget
        have hp := h (i + 1) (by simpa using hi) (by simpa using hget)
        rw [List.take_succ_cons, braceSum_cons] at hp
        have hdelta : braceDelta c = 0 := by simp [braceDelta, hc, hc2]
        rw [hdelta] at hp
        linarith

/-- C3: (a) on any input that is a balanced brace expression followed
by arbitrary trailing text, `_get_json_offset` run from the start
returns exactly the end offset of the object, i.e. the length of the
balanced expression (one past the matching top-level `'}'`, the
`html[:offset]` slice bound), computed by pushing an expected `'}'` on
each `'{'` and popping on each `'}'` until the stack empties; (b) on
any input whose scan never empties the bracket stack by end of text, it
raises the malformed/unterminated-object condition
(`PytubeError("Unable to determine json offset.")`). -/
theorem get_json_offset_spec :
    (∀ B T, BalancedBrace B → get_json_offset (B ++ T) = .ok B.length) ∧
    (∀ html, NeverEmpties html → get_json_offset html = .pytubeError) := by
  constructor
  · intro B T hB
    obtain ⟨hhead, hsum, hpre⟩ := hB
    cases B with
    | nil => simp at hhead
    | cons c t =>
      have hc : c = '{' := by simpa using hhead
      subst hc
      rw [braceSum_cons, braceDelta_open] at hsum
      show get_json_offset_loop [] 0 ('{' :: (t ++ T)) = _
      simp only [get_json_offset_loop, if_true, if_false]
      have h1 : braceSum t = -((([ '}' ] : List Char).length : Int)) := by
        simp only [List.length_cons, List.length_nil]
        push_cast
        linarith
      have h2 : ∀ i, i < t.length → 0 < i →
          -((([ '}' ] : List Char).length : Int)) < braceSum (t.take i) := by
        intro i hi hpos
        have hp := hpre (i + 1) (by simpa using hi) (by omega)
        rw [List.take_succ_cons, braceSum_cons, braceDelta_open] at hp
        simp only [List.length_cons, List.length_nil]
        push_cast
        linarith
      show get_json_offset_loop ['}'] 1 (t ++ T) = _
      rw [loop_closes t T ['}'] 1 (by simp) h1 h2]
      simp [Nat.add_comm]
  · intro html h
    show get_json_offset_loop [] 0 html = _
    apply loop_never_empties
    intro i hi hget
    have hp := h i hi hget
    simp only [List.length_nil, Nat.cast_zero, zero_add]
    exact hp

/-- Witness for `get_json_offset_spec`: the balanced expression
`"{a{}}"` with trailing text `"tail"` yields offset `5` (the end of the
object), and the unterminated input `"{ab"` yields the
malformed-object error. -/
theorem get_json_offset_spec_witness :
    get_json_offset ("\x7ba\x7b\x7d\x7d".toList ++ "tail".toList) = .ok 5 ∧
    get_json_offset ("\x7bab".toList) = .pytubeError := by
  constructor
  · exact get_json_offset_spec.1 ("\x7ba\x7b\x7d\x7d".toList) ("tail".toList)
      ⟨by decide, by decide, by decide⟩
  · exact get_json_offset_spec.2 ("\x7bab".toList)
      (by unfold NeverEmpties; decide)

/-! ## Quality profiles and itag extraction -/

/-- Embedding of the `YT_QUALITY_PROFILES` dict: the static itag to
quality-profile table, with the literal tuples of the source. -/
def YT_QUALITY_PROFILES : List (Nat × List String) :=
  [ (5, ["flv", "240p", "Sorenson H.263", "N/A", "0.25", "MP3", "64"]),
    (17, ["3gp", "144p", "MPEG-4 Visual", "Simple", "0.05", "AAC", "24"]),
    (36, ["3gp", "240p", "MPEG-4 Visual", "Simple", "0.17", "AAC", "38"]),
    (43, ["webm", "360p", "VP8", "N/A", "0.5", "Vorbis", "128"]),
    (100, ["webm", "360p", "VP8", "3D", "N/A", "Vorbis", "128"]),
    (18, ["mp4", "360p", "H.264", "Baseline", "0.5", "AAC", "96"]),
    (22, ["mp4", "720p", "H.264", "High", "2-2.9", "AAC", "192"]),
    (82, ["mp4", "360p", "H.264", "3D", "0.5", "AAC", "96"]),
    (83, ["mp4", "240p", "H.264", "3D", "0.5", "AAC", "96"]),
    (84, ["mp4", "720p", "H.264", "3D", "2-2.9", "AAC", "152"]),
    (85, ["mp4", "1080p", "H.264", "3D", "2-2.9", "AAC", "152"]) ]

/-- The `YT_QUALITY_PROFILE_KEYS` tuple: the keys zipped with a profile
tuple by `_get_quality_profile_from_url`. -/
def YT_QUALITY_PROFILE_KEYS : List String :=
  ["extension", "resolution", "video_codec", "profile",
   "video_bitrate", "audio_codec", "audio_bitrate"]

/-- Splits off the maximal leading run of ASCII digits (the greedy
`\d+`). -/
def splitDigits : Str → Str × Str
  | [] => ([], [])
  | c :: rest =>
    if c.isDigit then (c :: (splitDigits rest).1, (splitDigits rest).2)
    else ([], c :: rest)

/-- `startsWith needle hay`: `hay` begins with `needle`. -/
def startsWith : Str → Str → Bool
  | [], _ => true
  | _ :: _, [] => false
  | a :: as, b :: bs => a = b && startsWith as bs

/-- Embedding of `re.findall('itag=(\d+)', url)`: at every position
where the literal `itag=` is followed by at least one digit, the
maximal digit run is captured, scanning left to right.  Scanning every
position is equivalent to the regex engine's resume-after-match rule
because no character of a match's span (`tag=` and digits) is `'i'`, so
no later match can start inside an earlier one. -/
def findItags : Str → List Str
  | [] => []
  | c :: rest =>
    if c = 'i' ∧ startsWith ("tag=".toList) rest ∧ (splitDigits (rest.drop 4)).1 ≠ [] then
      (splitDigits (rest.drop 4)).1 :: findItags rest
    else findItags rest

/-- Embedding of Python `int` on a string of decimal digits. -/
def digitsToNat (d : Str) : Nat :=
  d.foldl (fun n c => 10 * n + (c.toNat - '0'.toNat)) 0

/-- Result of `_get_quality_profile_from_url`: the `(itag, profile)`
pair on success (`profile = none` embeds Python's `(itag, None)` for an
unknown itag), or one of the two `PytubeError` conditions. -/
inductive ItagResult where
  | ok (itag : Nat) (profile : Option (List String))
  | noItagError
  | multipleItagsError
deriving Repr, DecidableEq

/-- Embedding of `YouTube._get_quality_profile_from_url`.  The
`dict(zip(KEYS, profile))` packaging is deferred to the `Video`
construction (`mkVideo`); here the raw profile tuple is returned. -/
def get_quality_profile_from_url (video_url : Str) : ItagResult :=
  match findItags video_url with
  | [d] => ItagResult.ok (digitsToNat d) (List.lookup (digitsToNat d) YT_QUALITY_PROFILES)
  | [] => ItagResult.noItagError
  | _ => ItagResult.multipleItagsError

theorem lookup_eq_none_of_not_mem {β : Type} (l : List (Nat × β)) (k : Nat)
    (h : k ∉ l.map Prod.fst) : List.lookup k l = none := by
  induction l with
  | nil => rfl
  | cons p rest ih =>
    simp only [List.map_cons, List.mem_cons] at h
    push_neg at h
    have hbeq : (k == p.1) = false := beq_eq_false_iff_ne.mpr h.1
    obtain ⟨a, b⟩ := p
    simp only [List.lookup]
    simp only at hbeq
    rw [hbeq]
    exact ih h.2

/-- C4: the quality-profile lookup for itag 22 returns exactly the
tuple `(mp4, 720p, H.264, High, 2-2.9, AAC, 192)`; for every itag not
in the fixed table the lookup returns absent (`none`) and never raises,
and `_get_quality_profile_from_url` on a URL carrying exactly one such
unknown itag returns `(itag, None)` rather than an error, which the
caller treats as "skip this candidate". -/
theorem quality_profile_lookup :
    List.lookup 22 YT_QUALITY_PROFILES =
      some ["mp4", "720p", "H.264", "High", "2-2.9", "AAC", "192"] ∧
    ∀ itag : Nat, itag ∉ YT_QUALITY_PROFILES.map Prod.fst →
      List.lookup itag YT_QUALITY_PROFILES = none ∧
      ∀ url d, findItags url = [d] → digitsToNat d = itag →
        get_quality_profile_from_url url = ItagResult.ok itag none := by
  refine ⟨rfl, ?_⟩
  intro itag hmem
  have hnone := lookup_eq_none_of_not_mem YT_QUALITY_PROFILES itag hmem
  refine ⟨hnone, ?_⟩
  intro url d hfind hd
  subst hd
  simp [get_quality_profile_from_url, hfind, hnone]

/-- Witness for `quality_profile_lookup` at the unknown itag 999 and a
concrete URL carrying it. -/
theorem quality_profile_lookup_witness :
    List.lookup 999 YT_QUALITY_PROFILES = none ∧
    get_quality_profile_from_url ("v.example/get?itag=999&sig=s".toList) =
      ItagResult.ok 999 none :=
  ⟨(quality_profile_lookup.2 999 (by decide)).1,
   (quality_profile_lookup.2 999 (by decide)).2
     ("v.example/get?itag=999&sig=s".toList) ("999".toList) (by decide) (by decide)⟩

/-- C6: itag extraction by the regex scan over a candidate URL: zero
`itag=<digits>` matches yield the "no itag found" error, more than one
match yields the "multiple itags found" error, and exactly one match
proceeds with the single itag and its table lookup. -/
theorem itag_extraction_cases (url : Str) :
    (findItags url = [] → get_quality_profile_from_url url = ItagResult.noItagError) ∧
    (∀ d ds, findItags url = d :: ds → ds ≠ [] →
      get_quality_profile_from_url url = ItagResult.multipleItagsError) ∧
    (∀ d, findItags url = [d] →
      get_quality_profile_from_url url =
        ItagResult.ok (digitsToNat d) (List.lookup (digitsToNat d) YT_QUALITY_PROFILES)) := by
  refine ⟨?_, ?_, ?_⟩
  · intro hfind
    simp [get_quality_profile_from_url, hfind]
  · intro d ds hfind hne
    cases ds with
    | nil => exact absurd rfl hne
    | cons d2 ds2 => simp [get_quality_profile_from_url, hfind]
  · intro d hfind
    simp [get_quality_profile_from_url, hfind]

/-- Witness for `itag_extraction_cases` at three concrete URLs with
zero, two and one `itag=<digits>` matches respectively. -/
theorem itag_extraction_cases_witness :
    get_quality_profile_from_url ("v.example/get?q=hd".toList) = ItagResult.noItagError ∧
    get_quality_profile_from_url ("a?itag=22&b?itag=18".toList) = ItagResult.multipleItagsError ∧
    get_quality_profile_from_url ("a?itag=22".toList) =
      ItagResult.ok 22 (some ["mp4", "720p", "H.264", "High", "2-2.9", "AAC", "192"]) := by
  refine ⟨(itag_extraction_cases _).1 (by decide),
          (itag_extraction_cases _).2.1 ("22".toList) ["18".toList] (by decide) (by decide),
          ?_⟩
  have h := (itag_extraction_cases ("a?itag=22".toList)).2.2 ("22".toList) (by decide)
  rw [h]
  decide

/-! ## The resolution pipeline: session state, environment, `from_url` -/

/-- Modelled from the spec: the `Video` container (`models.py`, not
under `src/`) holding the resolved attributes — the signed url, the
filename, and the seven quality-profile fields of the consumer surface
(§6: `{url, container, resolution, videoCodec, profile, videoBitrate,
audioCodec, audioBitrate, filename}`). -/
structure Video where
  url : Str
  filename : Str
  extension : String
  resolution : String
  video_codec : String
  profile : String
  video_bitrate : String
  audio_codec : String
  audio_bitrate : String
deriving Repr, DecidableEq

/-- Embedding of `Video(url, filename, **dict(zip(YT_QUALITY_PROFILE_KEYS,
quality_profile)))`: each keyword from the zipped dict becomes the
corresponding attribute. -/
def mkVideo (url filename : Str) (qp : List String) : Video :=
  let kw := List.zip YT_QUALITY_PROFILE_KEYS qp
  { url := url, filename := filename,
    extension := (List.lookup "extension" kw).getD "",
    resolution := (List.lookup "resolution" kw).getD "",
    video_codec := (List.lookup "video_codec" kw).getD "",
    profile := (List.lookup "profile" kw).getD "",
    video_bitrate := (List.lookup "video_bitrate" kw).getD "",
    audio_codec := (List.lookup "audio_codec" kw).getD "",
    audio_bitrate := (List.lookup "audio_bitrate" kw).getD "" }

/-- Lexicographic order on character lists, used for the video sort
key. -/
def charListLe : List Char → List Char → Bool
  | [], _ => true
  | _ :: _, [] => false
  | a :: as, b :: bs => if a = b then charListLe as bs else decide (a < b)

/-- Modelled from the spec: the sort order of `self._videos.sort()`
(`Video.__lt__` lives in `models.py`, not under `src/`); §3 orders
resolved streams by a resolution-derived rank, here the pair
(container, resolution) compared lexicographically. -/
def videoLe (v w : Video) : Bool :=
  charListLe (v.extension.toList ++ ' ' :: v.resolution.toList)
    (w.extension.toList ++ ' ' :: w.resolution.toList)

def insertSorted (v : Video) : List Video → List Video
  | [] => [v]
  | w :: ws => if videoLe v w then v :: w :: ws else w :: insertSorted v ws

/-- Embedding of the in-place `list.sort()` on the videos collection. -/
def sortVideos : List Video → List Video
  | [] => []
  | v :: vs => insertSorted v (sortVideos vs)

/-- The mutable attributes of one `YouTube` session object
(`__init__` sets `_filename = None`, `_video_url = None`,
`_js_code = False`, `_videos = []`; `title` is first assigned in
`get_video_data`). -/
structure YouTubeState where
  _filename : Option Str
  _video_url : Option Str
  _js_code : Option Str
  _videos : List Video
  title : Option Str
deriving Repr, DecidableEq

/-- The state of a freshly constructed session. -/
def initialState : YouTubeState :=
  { _filename := none, _video_url := none, _js_code := none,
    _videos := [], title := none }

/-- Observable external effects of one call: the page `urlopen`, the
cipher-script `urlopen`, and each `_videos.append`. -/
inductive Event where
  | fetchPage
  | fetchJs
  | addVideo (v : Video)
deriving Repr, DecidableEq

/-- The fields of the parsed `ytplayer.config` object that the pipeline
reads out of `json_object["args"]`. -/
structure ArgsObject where
  title : Option Str
  url_encoded_fmt_stream_map : Option Str
deriving Repr, DecidableEq

/-- The parsed `ytplayer.config` object: its `args` mapping (absence is
the `KeyError` on `json_object['args']`) and `assets.js` (absence makes
`"http:" + None` a `TypeError`). -/
structure ConfigObject where
  args : Option ArgsObject
  assetsJs : Option Str
deriving Repr, DecidableEq

/-- The external collaborators of one resolution call. `pageResponse`
and `jsResponse` model the two `urlopen` calls (`none` is a falsy
response); `jsonLoads` models the standard-library `json.loads`
(`none` is a parse exception); `interp` is modelled from the spec: the
`jsinterp` module (ScriptTransformInterpreter, not under `src/`),
taking script text, function name and signature, `none` meaning any
extraction/evaluation failure; `safe_filename` is modelled from the
spec: the filename-sanitization collaborator `utils.safe_filename`. -/
structure Env where
  pageResponse : Option Str
  jsResponse : Option Str
  jsonLoads : Str → Option ConfigObject
  interp : Str → Str → Str → Option Str
  safe_filename : Option Str → Str

/-- The exceptions that abort a pipeline call, by raise site. -/
inductive Fatal where
  | unableToOpenUrl
  | ageRestricted
  | offsetPytubeError
  | offsetIndexError
  | unableToExtractJson
  | jsonParseError
  | missingArgs
  | missingStreamMap
  | streamMapValueError
  | typeErrorAssetsJs
  | noItagFound
  | multipleItagsFound
  | keyErrorSig
  | indexErrorSig
  | cipherError
deriving Repr, DecidableEq

/-- Index of the first occurrence of `needle`, `none` when absent. -/
def findSub (needle : Str) : Str → Option Nat
  | [] => if needle = [] then some 0 else none
  | c :: rest =>
    if startsWith needle (c :: rest) then some 0
    else (findSub needle rest).map (· + 1)

/-- Embedding of Python's substring test `needle in hay`. -/
def containsSub (hay needle : Str) : Bool :=
  (findSub needle hay).isSome

/-- Embedding of Python `str.find`: first index or `-1`. -/
def pyFind (hay needle : Str) : Int :=
  match findSub needle hay with
  | some i => (i : Int)
  | none => -1

/-- The marker preceding the embedded config object; the source
hardcodes its length as the magic constant 18. -/
def ytConfigMarker : Str := "ytplayer.config = ".toList

/-- The age-restriction marker searched in the fetched page. -/
def ageMarker : Str := "og:restrictions:age".toList

/-- The literal whose presence in a candidate URL short-circuits cipher
resolution. -/
def signatureMarker : Str := "signature=".toList

/-- The stream-map key of the signature tokens (`stream_map["s"]`). -/
def sKey : Str := "s".toList

/-- The stream-map key of the candidate URLs (`stream_map.get("url")`). -/
def urlKey : Str := "url".toList

/-- Embedding of `YouTube._get_json_data`: slice the page just after
the marker (`html.find(marker) + 18`), bracket-scan for the end of the
object, reject a falsy offset, and give `html[:offset]` to
`json.loads`. -/
def get_json_data (jsonLoads : Str → Option ConfigObject) (html : Str) :
    Except Fatal ConfigObject :=
  let start := pyFind html ytConfigMarker + 18
  let html2 := html.drop start.toNat
  match get_json_offset html2 with
  | OffsetResult.ok offset =>
    if offset = 0 then Except.error Fatal.unableToExtractJson
    else
      match jsonLoads (html2.take offset) with
      | some cfg => Except.ok cfg
      | none => Except.error Fatal.jsonParseError
  | OffsetResult.pytubeError => Except.error Fatal.offsetPytubeError
  | OffsetResult.indexError => Except.error Fatal.offsetIndexError

/-- Embedding of `YouTube.get_video_data`: reset `title`, fetch the
page (always one `Event.fetchPage`), fail on a falsy response, fail on
the age-restriction marker, extract the config JSON, then decode the
nested encoded stream map. -/
def get_video_data (env : Env) (st : YouTubeState) :
    (Except Fatal (ConfigObject × Dct)) × YouTubeState × List Event :=
  let st1 := { st with title := none }
  match env.pageResponse with
  | none => (Except.error Fatal.unableToOpenUrl, st1, [Event.fetchPage])
  | some html =>
    if containsSub html ageMarker then
      (Except.error Fatal.ageRestricted, st1, [Event.fetchPage])
    else
      match get_json_data env.jsonLoads html with
      | Except.error e => (Except.error e, st1, [Event.fetchPage])
      | Except.ok cfg =>
        match cfg.args with
        | none => (Except.error Fatal.missingArgs, st1, [Event.fetchPage])
        | some args =>
          match args.url_encoded_fmt_stream_map with
          | none => (Except.error Fatal.missingStreamMap, st1, [Event.fetchPage])
          | some blob =>
            match parse_stream_map blob with
            | none => (Except.error Fatal.streamMapValueError, st1, [Event.fetchPage])
            | some dct => (Except.ok (cfg, dct), st1, [Event.fetchPage])

/-- A character of the cipher-function-name class `[a-zA-Z0-9$]`. -/
def isFuncNameChar (c : Char) : Bool :=
  (decide ('a' ≤ c) && decide (c ≤ 'z')) ||
  (decide ('A' ≤ c) && decide (c ≤ 'Z')) ||
  (decide ('0' ≤ c) && decide (c ≤ '9')) || decide (c = '$')

/-- Splits off the maximal leading run of name characters. -/
def splitFuncName : Str → Str × Str
  | [] => ([], [])
  | c :: rest =>
    if isFuncNameChar c then
      (c :: (splitFuncName rest).1, (splitFuncName rest).2)
    else ([], c :: rest)

/-- Embedding of `re.search(r'\.sig\|\|([a-zA-Z0-9$]+)\(', js)`: the
first position where `.sig||` is followed by a non-empty name run and
an opening parenthesis yields the captured name. -/
def searchSigFunc : Str → Option Str
  | [] => none
  | c :: rest =>
    if c = '.' ∧ startsWith ("sig||".toList) rest then
      match splitFuncName (rest.drop 5) with
      | (n :: ame, '(' :: _) => some (n :: ame)
      | _ => searchSigFunc rest
    else searchSigFunc rest

/-- The `try` block of `_get_cipher`: a missing regex match leaves
`func` unbound (`NameError`), and extraction/evaluation failures in the
interpreter raise; all are caught and re-raised as `CipherError`. -/
def cipherTry (env : Env) (code signature : Str) : Except Fatal Str :=
  match searchSigFunc code with
  | none => Except.error Fatal.cipherError
  | some func =>
    match env.interp code func signature with
    | none => Except.error Fatal.cipherError
    | some res => Except.ok res

/-- Embedding of `YouTube._get_cipher`.  The `if not self._js_code`
cache check treats the initial `False` (`none`) and an empty cached
string as falsy and fetches in those cases (one `Event.fetchJs`); a
falsy fetch response raises the `PytubeError` before the `try`. -/
def get_cipher (env : Env) (st : YouTubeState) (signature url : Str) :
    (Except Fatal Str) × YouTubeState × List Event :=
  match st._js_code with
  | some (c :: cs) => (cipherTry env (c :: cs) signature, st, [])
  | _ =>
    match env.jsResponse with
    | none => (Except.error Fatal.unableToOpenUrl, st, [Event.fetchJs])
    | some code =>
      (cipherTry env code signature, { st with _js_code := some code },
        [Event.fetchJs])

/-- Embedding of the `filename` property: a falsy `_filename` (unset or
empty) is regenerated as `safe_filename(self.title)` and cached. -/
def filenameProp (env : Env) (st : YouTubeState) : Str × YouTubeState :=
  match st._filename with
  | some (c :: cs) => (c :: cs, st)
  | _ =>
    let f := env.safe_filename st.title
    (f, { st with _filename := some f })

/-- Embedding of `YouTube._add_video` together with the `self.filename`
property evaluation at its call site: build the `Video`, append it to
`_videos` and sort in place; the `Event.addVideo` records the append. -/
def add_video (env : Env) (st : YouTubeState) (url : Str) (qp : List String) :
    YouTubeState × List Event :=
  let (fname, st1) := filenameProp env st
  let v := mkVideo url fname qp
  ({ st1 with _videos := sortVideos (st1._videos ++ [v]) }, [Event.addVideo v])

/-- The per-record loop of `from_url` (`for idx, url in
enumerate(video_urls)`).  The `except (TypeError, KeyError)` clause
around the classification catches neither of the two `PytubeError`
outcomes of `_get_quality_profile_from_url` (and in this typed
embedding no `TypeError`/`KeyError` can arise from it), so those
abort; the cipher call sits outside the `try`, so `stream_map["s"]`
key/index errors and any cipher failure abort as well; only an unknown
itag (absent profile) skips the record and continues. -/
def processRecords (env : Env) (dct : Dct) (jsUrl : Str) :
    List Str → Nat → YouTubeState → (Except Fatal YouTubeState) × List Event
  | [], _, st => (Except.ok st, [])
  | u :: rest, idx, st =>
    match get_quality_profile_from_url u with
    | ItagResult.noItagError => (Except.error Fatal.noItagFound, [])
    | ItagResult.multipleItagsError => (Except.error Fatal.multipleItagsFound, [])
    | ItagResult.ok _ none => processRecords env dct jsUrl rest (idx + 1) st
    | ItagResult.ok _ (some qp) =>
      if containsSub u signatureMarker then
        let (st1, ev1) := add_video env st u qp
        let (r, ev2) := processRecords env dct jsUrl rest (idx + 1) st1
        (r, ev1 ++ ev2)
      else
        match dctLookup sKey dct with
        | none => (Except.error Fatal.keyErrorSig, [])
        | some svals =>
          match svals[idx]? with
          | none => (Except.error Fatal.indexErrorSig, [])
          | some sval =>
            match get_cipher env st sval jsUrl with
            | (Except.error e, _, ev1) => (Except.error e, ev1)
            | (Except.ok sig, st1, ev1) =>
              let u2 := u ++ "&signature=".toList ++ sig
              let (st2, ev2) := add_video env st1 u2 qp
              let (r, ev3) := processRecords env dct jsUrl rest (idx + 1) st2
              (r, ev1 ++ ev2 ++ ev3)

/-- Embedding of `YouTube.from_url`: store the url, reset the filename,
fetch and extract the video data, set the title, build the script url
(`"http:" + assets.js`), then classify and resolve each candidate URL
of the decoded stream map. -/
def from_url (env : Env) (st : YouTubeState) (url : Str) :
    (Except Fatal YouTubeState) × List Event :=
  let st1 := { st with _video_url := some url, _filename := none }
  match get_video_data env st1 with
  | (Except.error e, _, ev) => (Except.error e, ev)
  | (Except.ok (cfg, dct), st2, ev) =>
    let st3 := { st2 with title := (cfg.args.map ArgsObject.title).getD none }
    match cfg.assetsJs with
    | none => (Except.error Fatal.typeErrorAssetsJs, ev)
    | some js =>
      let jsUrl := "http:".toList ++ js
      let videoUrls := (dctLookup urlKey dct).getD []
      let (r, ev2) := processRecords env dct jsUrl videoUrls 0 st3
      (r, ev ++ ev2)

/-- Truthiness of an optional string criterion (`None` and `""` are
falsy). -/
def truthy : Option String → Bool
  | none => false
  | some s => !s.isEmpty

/-- The shared record predicate of `get` and `filter`: keep the video
unless some provided criterion differs. -/
def keepVideo (extension resolution profile : Option String) (v : Video) : Bool :=
  if truthy extension ∧ some v.extension ≠ extension then false
  else if truthy resolution ∧ some v.resolution ≠ resolution then false
  else if truthy profile ∧ some v.profile ≠ profile then false
  else true

/-- Embedding of `YouTube.filter`. -/
def filter (st : YouTubeState) (extension resolution profile : Option String) :
    List Video :=
  st._videos.filter (keepVideo extension resolution profile)

/-- Result of `YouTube.get`: the single matching video, the **returned**
`DoesNotExist` exception instance (the zero-match branch returns it
instead of raising), or the raised `MultipleObjectsReturned`. -/
inductive GetResult where
  | video (v : Video)
  | returnedDoesNotExist
  | raisedMultipleObjectsReturned
deriving Repr, DecidableEq

/-- Embedding of `YouTube.get`: its result list is built by the same
loop as `filter`; `matches <= 0` returns the `DoesNotExist` instance,
`matches == 1` returns `result[0]`, otherwise
`MultipleObjectsReturned` is raised. -/
def get (st : YouTubeState) (extension resolution profile : Option String) :
    GetResult :=
  match filter st extension resolution profile with
  | [] => GetResult.returnedDoesNotExist
  | [v] => GetResult.video v
  | _ => GetResult.raisedMultipleObjectsReturned

/-- The videos appended during a call, read off the event trace. -/
def addedVideos (evs : List Event) : List Video :=
  evs.filterMap (fun e =>
    match e with
    | Event.addVideo v => some v
    | _ => none)

/-- C7: for every environment whose page response contains the marker
`"og:restrictions:age"` — in particular for every `json.loads` oracle
and every page content — `get_video_data` fails with `AgeRestricted`
and `from_url` aborts with it, with the page fetch as the only external
effect; since the result is independent of the parse oracle and of the
page's brace structure, the failure happens before any config
extraction is attempted. -/
theorem age_restricted_before_config (env : Env) (st : YouTubeState)
    (html : Str) (url : Str)
    (h1 : env.pageResponse = some html)
    (h2 : containsSub html ageMarker = true) :
    get_video_data env st =
      (Except.error Fatal.ageRestricted, { st with title := none },
        [Event.fetchPage]) ∧
    from_url env st url = (Except.error Fatal.ageRestricted, [Event.fetchPage]) := by
  have hgvd : ∀ s : YouTubeState, get_video_data env s =
      (Except.error Fatal.ageRestricted, { s with title := none },
        [Event.fetchPage]) := by
    intro s
    unfold get_video_data
    rw [h1]
    simp [h2]
  refine ⟨hgvd st, ?_⟩
  unfold from_url
  dsimp only
  rw [hgvd]

/-- Witness for `age_restricted_before_config`: a page carrying the
marker, paired with a `json.loads` oracle that always fails — the
result is `AgeRestricted` all the same, so the parser was never
consulted. -/
theorem age_restricted_before_config_witness :
    get_video_data
        { pageResponse := some ("<meta og:restrictions:age>".toList),
          jsResponse := none, jsonLoads := fun _ => none,
          interp := fun _ _ _ => none, safe_filename := fun _ => [] }
        initialState =
      (Except.error Fatal.ageRestricted,
        { initialState with title := none }, [Event.fetchPage]) ∧
    from_url
        { pageResponse := some ("<meta og:restrictions:age>".toList),
          jsResponse := none, jsonLoads := fun _ => none,
          interp := fun _ _ _ => none, safe_filename := fun _ => [] }
        initialState ("u".toList) =
      (Except.error Fatal.ageRestricted, [Event.fetchPage]) :=
  age_restricted_before_config _ initialState
    ("<meta og:restrictions:age>".toList) ("u".toList) rfl (by decide)

/-- C8: the single-match query `get`: when the criteria select exactly
one video it is returned (and it is the unique matching video of the
session); zero matches yield the `DoesNotExist` outcome; more than one
match yields the distinct `MultipleObjectsReturned` outcome. -/
theorem get_match_semantics (st : YouTubeState)
    (extension resolution profile : Option String) :
    (filter st extension resolution profile = [] →
      get st extension resolution profile = GetResult.returnedDoesNotExist) ∧
    (∀ v, filter st extension resolution profile = [v] →
      get st extension resolution profile = GetResult.video v ∧
      ∀ w, w ∈ st._videos → keepVideo extension resolution profile w = true →
        w = v) ∧
    (∀ v w rest, filter st extension resolution profile = v :: w :: rest →
      get st extension resolution profile =
        GetResult.raisedMultipleObjectsReturned) ∧
    GetResult.returnedDoesNotExist ≠ GetResult.raisedMultipleObjectsReturned := by
  refine ⟨?_, ?_, ?_, by decide⟩
  · intro h
    simp [get, h]
  · intro v h
    refine ⟨by simp [get, h], ?_⟩
    intro w hw hkeep
    have hmem : w ∈ filter st extension resolution profile := by
      simp [filter, List.mem_filter, hw, hkeep]
    rw [h] at hmem
    simpa using hmem
  · intro v w rest h
    simp [get, h]

/-- A concrete resolved video with the itag-22 profile. -/
def videoA : Video :=
  mkVideo ("uA".toList) ("f".toList)
    ["mp4", "720p", "H.264", "High", "2-2.9", "AAC", "192"]

/-- A concrete resolved video with the itag-5 profile. -/
def videoB : Video :=
  mkVideo ("uB".toList) ("f".toList)
    ["flv", "240p", "Sorenson H.263", "N/A", "0.25", "MP3", "64"]

/-- A session holding the two concrete videos. -/
def twoVideoState : YouTubeState :=
  { initialState with _videos := [videoA, videoB] }

/-- Witness for `get_match_semantics` on a two-video session: an
extension criterion with no match, one with exactly one match, and the
no-criteria query matching both. -/
theorem get_match_semantics_witness :
    get twoVideoState (some "3gp") none none = GetResult.returnedDoesNotExist ∧
    get twoVideoState (some "mp4") none none = GetResult.video videoA ∧
    get twoVideoState none none none = GetResult.raisedMultipleObjectsReturned :=
  ⟨(get_match_semantics twoVideoState (some "3gp") none none).1 (by decide),
   ((get_match_semantics twoVideoState (some "mp4") none none).2.1 videoA
      (by decide)).1,
   (get_match_semantics twoVideoState none none none).2.2.1 videoA videoB []
      (by decide)⟩

/-- C2 amended: per-record isolation holds only for classification
outcomes: a record whose single itag is unknown to the profile table is
skipped and the loop continues with the remaining records and the state
unchanged.  But a record with zero itag matches aborts the whole call
with the uncaught `PytubeError` ("no itag found"), one with multiple
matches aborts with the uncaught `PytubeError` ("multiple itags"), and
a cipher-resolution failure aborts with the uncaught error of
`_get_cipher` — the `except (TypeError, KeyError)` clause catches none
of these.  Page fetch, config extraction and stream-map decode failures
abort as well. -/
theorem record_failure_isolation (env : Env) (dct : Dct) (jsUrl : Str)
    (u : Str) (rest : List Str) (idx : Nat) (st : YouTubeState) :
    (∀ itag, get_quality_profile_from_url u = ItagResult.ok itag none →
      processRecords env dct jsUrl (u :: rest) idx st =
        processRecords env dct jsUrl rest (idx + 1) st) ∧
    (get_quality_profile_from_url u = ItagResult.noItagError →
      processRecords env dct jsUrl (u :: rest) idx st =
        (Except.error Fatal.noItagFound, [])) ∧
    (get_quality_profile_from_url u = ItagResult.multipleItagsError →
      processRecords env dct jsUrl (u :: rest) idx st =
        (Except.error Fatal.multipleItagsFound, [])) ∧
    (∀ itag qp svals sval e st1 ev1,
      get_quality_profile_from_url u = ItagResult.ok itag (some qp) →
      containsSub u signatureMarker = false →
      dctLookup sKey dct = some svals →
      svals[idx]? = some sval →
      get_cipher env st sval jsUrl = (Except.error e, st1, ev1) →
      processRecords env dct jsUrl (u :: rest) idx st = (Except.error e, ev1)) := by
  refine ⟨?_, ?_, ?_, ?_⟩
  · intro itag h
    simp [processRecords, h]
  · intro h
    simp [processRecords, h]
  · intro h
    simp [processRecords, h]
  · intro itag qp svals sval e st1 ev1 h hsig hks hidx hcipher
    simp [processRecords, h, hsig, hks, hidx, hcipher]

/-- The encoded stream map of the C2 counterexample: two records, the
first without any itag in its URL, the second fully playable (known
itag 22 and a literal signature). -/
def blob0 : Str :=
  "url=nope&s=AA,url=ok%3Fitag%3D22%26signature%3Dabc&s=BB".toList

/-- Its decoded form. -/
def dct0 : Dct := (parse_stream_map blob0).getD initialDct

/-- The embedded config of the C2 counterexample page. -/
def cfg0 : ConfigObject :=
  { args := some
      { title := some ("T".toList),
        url_encoded_fmt_stream_map := some blob0 },
    assetsJs := some ("//yt.test/base.js".toList) }

/-- The environment of the C2 counterexample: the page fetch succeeds
and carries an embedded `{}` object, the parse oracle returns `cfg0`,
and the script side would succeed if consulted. -/
def env0 : Env :=
  { pageResponse := some ("ytplayer.config = {};rest".toList),
    jsResponse := some (".sig||ab(x)".toList),
    jsonLoads := fun _ => some cfg0,
    interp := fun _ _ s => some s,
    safe_filename := fun t => t.getD [] }

/-- C2 counterexample: on a session whose decoded stream map holds two
candidate records, the first of which has no `itag=` token in its URL,
the whole `from_url` call aborts with the uncaught `PytubeError` ("no
itag found") — the remaining, fully resolvable record (which on its own
processes successfully) is never reached, contradicting the claim that
such a failure skips only the failing record. -/
theorem from_url_no_itag_aborts :
    (from_url env0 initialState ("http://yt.test/watch?v=x".toList)).1 =
      Except.error Fatal.noItagFound ∧
    (dctLookup urlKey dct0).getD [] =
      ["nope".toList, "ok?itag=22&signature=abc".toList] ∧
    ((processRecords env0 dct0 ("http://yt.test/base.js".toList)
        ["ok?itag=22&signature=abc".toList] 1 initialState).1).isOk = true := by
  refine ⟨rfl, by decide, by decide⟩

/-- Witness data for `record_failure_isolation`: a stream-map dict with
one signature token, and an environment whose script fetch fails. -/
def dctW : Dct := [("s".toList, ["SS".toList])]

/-- The environment of the `record_failure_isolation` witness. -/
def envW : Env :=
  { pageResponse := none, jsResponse := none, jsonLoads := fun _ => none,
    interp := fun _ _ _ => none, safe_filename := fun _ => [] }

/-- Witness for `record_failure_isolation` at four concrete records: an
unknown itag is skipped; a no-itag record, a multiple-itag record and a
record whose cipher resolution fails (script unreachable) each abort. -/
theorem record_failure_isolation_witness :
    (processRecords envW dctW [] ["u?itag=999".toList] 0 initialState =
      processRecords envW dctW [] [] 1 initialState) ∧
    processRecords envW dctW [] ["nope".toList] 0 initialState =
      (Except.error Fatal.noItagFound, []) ∧
    processRecords envW dctW [] ["a?itag=1&itag=2".toList] 0 initialState =
      (Except.error Fatal.multipleItagsFound, []) ∧
    processRecords envW dctW [] ["c?itag=22".toList] 0 initialState =
      (Except.error Fatal.unableToOpenUrl, [Event.fetchJs]) :=
  ⟨(record_failure_isolation envW dctW [] ("u?itag=999".toList) [] 0
      initialState).1 999 (by decide),
   (record_failure_isolation envW dctW [] ("nope".toList) [] 0
      initialState).2.1 (by decide),
   (record_failure_isolation envW dctW [] ("a?itag=1&itag=2".toList) [] 0
      initialState).2.2.1 (by decide),
   (record_failure_isolation envW dctW [] ("c?itag=22".toList) [] 0
      initialState).2.2.2 22
     ["mp4", "720p", "H.264", "High", "2-2.9", "AAC", "192"]
     ["SS".toList] ("SS".toList) Fatal.unableToOpenUrl initialState
     [Event.fetchJs] (by decide) (by decide) (by decide) (by decide)
     (by rfl)⟩

/-! ## Support lemmas for the caching and frame-effect claims -/

theorem insertSorted_perm (v : Video) (l : List Video) :
    (insertSorted v l).Perm (v :: l) := by
  induction l with
  | nil => exact List.Perm.refl _
  | cons w ws ih =>
    unfold insertSorted
    by_cases h : videoLe v w = true
    · rw [if_pos h]
    · rw [if_neg h]
      exact List.Perm.trans (List.Perm.cons w ih) (List.Perm.swap v w ws)

theorem sortVideos_perm (l : List Video) : (sortVideos l).Perm l := by
  induction l with
  | nil => exact List.Perm.refl _
  | cons v vs ih =>
    exact List.Perm.trans (insertSorted_perm v (sortVideos vs))
      (List.Perm.cons v ih)

theorem add_video_spec (env : Env) (st : YouTubeState) (u : Str)
    (qp : List String) :
    (add_video env st u qp).1._js_code = st._js_code ∧
    (add_video env st u qp).1._video_url = st._video_url ∧
    (add_video env st u qp).2 =
      [Event.addVideo (mkVideo u (filenameProp env st).1 qp)] ∧
    (add_video env st u qp).1._videos.Perm
      (st._videos ++ [mkVideo u (filenameProp env st).1 qp]) := by
  cases hf : st._filename with
  | none =>
    refine ⟨?_, ?_, ?_, ?_⟩ <;>
      simp only [add_video, filenameProp, hf] <;>
      first
        | rfl
        | exact sortVideos_perm _
  | some f =>
    cases f with
    | nil =>
      refine ⟨?_, ?_, ?_, ?_⟩ <;>
        simp only [add_video, filenameProp, hf] <;>
        first
          | rfl
          | exact sortVideos_perm _
    | cons c cs =>
      refine ⟨?_, ?_, ?_, ?_⟩ <;>
        simp only [add_video, filenameProp, hf] <;>
        first
          | rfl
          | exact sortVideos_perm _

/-- Fetch budget of a session state: `1` while the script cache is
falsy, `0` once a non-empty script text is cached. -/
def jsFuel (st : YouTubeState) : Nat :=
  match st._js_code with
  | some (_ :: _) => 0
  | _ => 1

theorem cipherTry_ok_ne_nil {env : Env} {code signature s : Str}
    (h : cipherTry env code signature = Except.ok s) : code ≠ [] := by
  intro hc
  subst hc
  simp [cipherTry, searchSigFunc] at h

theorem get_cipher_cached (env : Env) (st : YouTubeState) (signature url : Str)
    (c : Char) (cs : Str) (h : st._js_code = some (c :: cs)) :
    get_cipher env st signature url = (cipherTry env (c :: cs) signature, st, []) := by
  unfold get_cipher
  rw [h]

theorem get_cipher_falsy (env : Env) (st : YouTubeState) (signature url : Str)
    (h : jsFuel st = 1) :
    get_cipher env st signature url =
      match env.jsResponse with
      | none => (Except.error Fatal.unableToOpenUrl, st, [Event.fetchJs])
      | some code =>
        (cipherTry env code signature, { st with _js_code := some code },
          [Event.fetchJs]) := by
  unfold get_cipher
  cases hjs : st._js_code with
  | none => rfl
  | some f =>
    cases f with
    | nil => rfl
    | cons c cs => simp [jsFuel, hjs] at h

theorem count_fetchJs_addVideo (v : Video) (l : List Event) :
    (Event.addVideo v :: l).count Event.fetchJs = l.count Event.fetchJs := by
  simp [List.count_cons]

theorem addedVideos_append (a b : List Event) :
    addedVideos (a ++ b) = addedVideos a ++ addedVideos b := by
  simp [addedVideos]

theorem addedVideos_addVideo (v : Video) (l : List Event) :
    addedVideos (Event.addVideo v :: l) = v :: addedVideos l := rfl

theorem addedVideos_fetchJs (l : List Event) :
    addedVideos (Event.fetchJs :: l) = addedVideos l := rfl

theorem get_cipher_state_fields (env : Env) (st : YouTubeState)
    (signature url : Str) :
    (get_cipher env st signature url).2.1._videos = st._videos ∧
    (get_cipher env st signature url).2.1._video_url = st._video_url ∧
    addedVideos (get_cipher env st signature url).2.2 = [] := by
  unfold get_cipher
  cases hjs : st._js_code with
  | none => cases env.jsResponse <;> exact ⟨rfl, rfl, rfl⟩
  | some f =>
    cases f with
    | nil => cases env.jsResponse <;> exact ⟨rfl, rfl, rfl⟩
    | cons c cs => exact ⟨rfl, rfl, rfl⟩

theorem add_video_eq_spec (env : Env) (st : YouTubeState) (u : Str)
    (qp : List String) {st1 : YouTubeState} {ev1 : List Event}
    (h : add_video env st u qp = (st1, ev1)) :
    st1._js_code = st._js_code ∧ st1._video_url = st._video_url ∧
    ev1 = [Event.addVideo (mkVideo u (filenameProp env st).1 qp)] ∧
    st1._videos.Perm (st._videos ++ [mkVideo u (filenameProp env st).1 qp]) := by
  have hspec := add_video_spec env st u qp
  rw [h] at hspec
  exact hspec

theorem get_cipher_eq_spec (env : Env) (st : YouTubeState) (signature url : Str)
    {rc : Except Fatal Str} {stc : YouTubeState} {evc : List Event}
    (h : get_cipher env st signature url = (rc, stc, evc)) :
    stc._videos = st._videos ∧ stc._video_url = st._video_url ∧
    addedVideos evc = [] := by
  have hspec := get_cipher_state_fields env st signature url
  rw [h] at hspec
  exact hspec

/-- A successful run of the per-record loop only appends the videos of
its `addVideo` events to the collection (up to the sort's reordering)
and leaves `_video_url` unchanged. -/
theorem processRecords_ok_spec (env : Env) (dct : Dct) (jsUrl : Str) :
    ∀ (records : List Str) (idx : Nat) (st st' : YouTubeState) (ev : List Event),
      processRecords env dct jsUrl records idx st = (Except.ok st', ev) →
      st'._videos.Perm (st._videos ++ addedVideos ev) ∧
      st'._video_url = st._video_url := by
  intro records
  induction records with
  | nil =>
    intro idx st st' ev h
    simp only [processRecords, Prod.mk.injEq, Except.ok.injEq] at h
    obtain ⟨rfl, rfl⟩ := h
    simp [addedVideos]
  | cons u rest ih =>
    intro idx st st' ev h
    simp only [processRecords] at h
    cases hq : get_quality_profile_from_url u with
    | noItagError => rw [hq] at h; exact absurd h (by simp)
    | multipleItagsError => rw [hq] at h; exact absurd h (by simp)
    | ok itag profile =>
      rw [hq] at h
      cases profile with
      | none => exact ih (idx + 1) st st' ev h
      | some qp =>
        dsimp only at h
        by_cases hsig : containsSub u signatureMarker = true
        · rw [if_pos hsig] at h
          rcases hadd : add_video env st u qp with ⟨st1, ev1⟩
          rw [hadd] at h
          dsimp only at h
          rcases hpr : processRecords env dct jsUrl rest (idx + 1) st1 with ⟨r2, ev2⟩
          rw [hpr] at h
          dsimp only at h
          simp only [Prod.mk.injEq] at h
          obtain ⟨hr2, hev⟩ := h
          subst hev
          obtain ⟨hv, hu⟩ := ih (idx + 1) st1 st' ev2 (by rw [hpr, hr2])
          obtain ⟨_, hurl1, hev1, hperm1⟩ := add_video_eq_spec env st u qp hadd
          refine ⟨?_, by rw [hu, hurl1]⟩
          rw [hev1, addedVideos_append, addedVideos_addVideo]
          have h1 := hv.trans (hperm1.append_right (addedVideos ev2))
          simpa [List.append_assoc, addedVideos] using h1
        · rw [if_neg hsig] at h
          cases hks : dctLookup sKey dct with
          | none => rw [hks] at h; exact absurd h (by simp)
          | some svals =>
            rw [hks] at h
            dsimp only at h
            cases hidx : svals[idx]? with
            | none => rw [hidx] at h; exact absurd h (by simp)
            | some sval =>
              rw [hidx] at h
              dsimp only at h
              rcases hgc : get_cipher env st sval jsUrl with ⟨rc, stc, evc⟩
              rw [hgc] at h
              cases rc with
              | error e => simp at h
              | ok sig =>
                dsimp only at h
                rcases hadd : add_video env stc
                    (u ++ "&signature=".toList ++ sig) qp with ⟨st2, ev2⟩
                rw [hadd] at h
                dsimp only at h
                rcases hpr : processRecords env dct jsUrl rest (idx + 1) st2
                    with ⟨r3, ev3⟩
                rw [hpr] at h
                dsimp only at h
                simp only [Prod.mk.injEq] at h
                obtain ⟨hr3, hev⟩ := h
                subst hev
                obtain ⟨hv, hu⟩ := ih (idx + 1) st2 st' ev3 (by rw [hpr, hr3])
                obtain ⟨hcv, hcu, hca⟩ := get_cipher_eq_spec env st sval jsUrl hgc
                obtain ⟨_, hurl2, hev2, hperm2⟩ := add_video_eq_spec env stc
                  (u ++ "&signature=".toList ++ sig) qp hadd
                refine ⟨?_, by rw [hu, hurl2, hcu]⟩
                rw [addedVideos_append, addedVideos_append, hca, hev2,
                  addedVideos_addVideo]
                have h1 := hv.trans (hperm2.append_right (addedVideos ev3))
                rw [hcv] at h1
                simpa [List.append_assoc, addedVideos] using h1

/-- A run of the per-record loop emits at most `jsFuel st` script
fetches: none when a non-empty script text is already cached, at most
one otherwise. -/
theorem processRecords_fetch_count (env : Env) (dct : Dct) (jsUrl : Str) :
    ∀ (records : List Str) (idx : Nat) (st : YouTubeState),
      ((processRecords env dct jsUrl records idx st).2.count Event.fetchJs) ≤
        jsFuel st := by
  intro records
  induction records with
  | nil => intro idx st; simp [processRecords]
  | cons u rest ih =>
    intro idx st
    simp only [processRecords]
    cases hq : get_quality_profile_from_url u with
    | noItagError => simp
    | multipleItagsError => simp
    | ok itag profile =>
      cases profile with
      | none => exact ih (idx + 1) st
      | some qp =>
        dsimp only
        by_cases hsig : containsSub u signatureMarker = true
        · rw [if_pos hsig]
          rcases hadd : add_video env st u qp with ⟨st1, ev1⟩
          dsimp only
          rcases hpr : processRecords env dct jsUrl rest (idx + 1) st1 with ⟨r2, ev2⟩
          dsimp only
          obtain ⟨hjs1, _, hev1, _⟩ := add_video_eq_spec env st u qp hadd
          have hcount2 : ev2.count Event.fetchJs ≤ jsFuel st1 := by
            have hc := ih (idx + 1) st1
            rw [hpr] at hc
            exact hc
          have hfuel : jsFuel st1 = jsFuel st := by
            unfold jsFuel
            rw [hjs1]
          rw [hev1]
          simp only [List.count_append, count_fetchJs_addVideo, List.count_nil]
          omega
        · rw [if_neg hsig]
          cases dctLookup sKey dct with
          | none => simp
          | some svals =>
            dsimp only
            cases svals[idx]? with
            | none => simp
            | some sval =>
              dsimp only
              rcases hgc : get_cipher env st sval jsUrl with ⟨rc, stc, evc⟩
              have hkey : evc.count Event.fetchJs + jsFuel stc ≤ jsFuel st ∨
                  (rc.isOk = false ∧ evc.count Event.fetchJs ≤ jsFuel st) := by
                unfold get_cipher at hgc
                cases hjs : st._js_code with
                | some f =>
                  cases f with
                  | cons c cs =>
                    rw [hjs] at hgc
                    simp only [Prod.mk.injEq] at hgc
                    obtain ⟨hrc, hstc, hevc⟩ := hgc
                    left
                    subst hstc
                    subst hevc
                    simp [jsFuel, hjs]
                  | nil =>
                    rw [hjs] at hgc
                    cases hr : env.jsResponse with
                    | none =>
                      rw [hr] at hgc
                      simp only [Prod.mk.injEq] at hgc
                      obtain ⟨hrc, hstc, hevc⟩ := hgc
                      right
                      subst hevc
                      constructor
                      · rw [← hrc]
                        rfl
                      · simp [jsFuel, hjs]
                    | some code =>
                      rw [hr] at hgc
                      simp only [Prod.mk.injEq] at hgc
                      obtain ⟨hrc, hstc, hevc⟩ := hgc
                      subst hevc
                      cases hct : cipherTry env code sval with
                      | error e =>
                        right
                        constructor
                        · rw [← hrc, hct]
                          rfl
                        · simp [jsFuel, hjs]
                      | ok sig =>
                        left
                        have hcode := cipherTry_ok_ne_nil hct
                        subst hstc
                        cases code with
                        | nil => exact absurd rfl hcode
                        | cons a b => simp [jsFuel, hjs]
                | none =>
                  rw [hjs] at hgc
                  cases hr : env.jsResponse with
                  | none =>
                    rw [hr] at hgc
                    simp only [Prod.mk.injEq] at hgc
                    obtain ⟨hrc, hstc, hevc⟩ := hgc
                    right
                    subst hevc
                    constructor
                    · rw [← hrc]
                      rfl
                    · simp [jsFuel, hjs]
                  | some code =>
                    rw [hr] at hgc
                    simp only [Prod.mk.injEq] at hgc
                    obtain ⟨hrc, hstc, hevc⟩ := hgc
                    subst hevc
                    cases hct : cipherTry env code sval with
                    | error e =>
                      right
                      constructor
                      · rw [← hrc, hct]
                        rfl
                      · simp [jsFuel, hjs]
                    | ok sig =>
                      left
                      have hcode := cipherTry_ok_ne_nil hct
                      subst hstc
                      cases code with
                      | nil => exact absurd rfl hcode
                      | cons a b => simp [jsFuel, hjs]
              cases rc with
              | error e =>
                dsimp only
                rcases hkey with hk | ⟨_, hk⟩
                · have hz : 0 ≤ jsFuel stc := Nat.zero_le _
                  omega
                · exact hk
              | ok sig =>
                dsimp only
                rcases hadd : add_video env stc
                    (u ++ "&signature=".toList ++ sig) qp with ⟨st2, ev2⟩
                dsimp only
                rcases hpr : processRecords env dct jsUrl rest (idx + 1) st2
                    with ⟨r3, ev3⟩
                dsimp only
                obtain ⟨hjs2, _, hev2, _⟩ := add_video_eq_spec env stc
                  (u ++ "&signature=".toList ++ sig) qp hadd
                have hcount3 : ev3.count Event.fetchJs ≤ jsFuel st2 := by
                  have hc := ih (idx + 1) st2
                  rw [hpr] at hc
                  exact hc
                have hfuel2 : jsFuel st2 = jsFuel stc := by
                  unfold jsFuel
                  rw [hjs2]
                rcases hkey with hk | ⟨hbad, _⟩
                · rw [hev2]
                  simp only [List.count_append, count_fetchJs_addVideo,
                    List.count_nil, List.nil_append]
                  omega
                · exact Bool.noConfusion hbad

theorem get_video_data_shape (env : Env) (st : YouTubeState) :
    (get_video_data env st).2.1 = { st with title := none } ∧
    (get_video_data env st).2.2 = [Event.fetchPage] := by
  unfold get_video_data
  dsimp only
  cases env.pageResponse with
  | none => exact ⟨rfl, rfl⟩
  | some html =>
    dsimp only
    by_cases hm : containsSub html ageMarker = true
    · rw [if_pos hm]
      exact ⟨rfl, rfl⟩
    · rw [if_neg hm]
      cases get_json_data env.jsonLoads html with
      | error e => exact ⟨rfl, rfl⟩
      | ok cfg =>
        dsimp only
        cases cfg.args with
        | none => exact ⟨rfl, rfl⟩
        | some args =>
          dsimp only
          cases args.url_encoded_fmt_stream_map with
          | none => exact ⟨rfl, rfl⟩
          | some blob =>
            dsimp only
            cases parse_stream_map blob with
            | none => exact ⟨rfl, rfl⟩
            | some dct => exact ⟨rfl, rfl⟩

theorem get_video_data_eq_shape (env : Env) (st : YouTubeState)
    {r : Except Fatal (ConfigObject × Dct)} {st2 : YouTubeState}
    {ev : List Event} (h : get_video_data env st = (r, st2, ev)) :
    st2 = { st with title := none } ∧ ev = [Event.fetchPage] := by
  have hs := get_video_data_shape env st
  rw [h] at hs
  exact hs

/-- C10: a call to `from_url` on a session whose videos collection is
already populated resets the filename and the video url but does not
clear the collection: on success the final collection is a permutation
of the previous videos followed by the newly resolved streams (the
videos of this call's `addVideo` events), so `get_videos()` afterwards
returns the streams of both resolutions. -/
theorem from_url_appends_videos (env : Env) (st : YouTubeState) (url : Str)
    (st' : YouTubeState) (ev : List Event)
    (h : from_url env st url = (Except.ok st', ev)) :
    st'._videos.Perm (st._videos ++ addedVideos ev) ∧
    st'._video_url = some url := by
  unfold from_url at h
  dsimp only at h
  rcases hgvd : get_video_data env
      { st with _video_url := some url, _filename := none } with ⟨r, st2, ev1⟩
  rw [hgvd] at h
  obtain ⟨hst2, hev1⟩ := get_video_data_eq_shape env _ hgvd
  cases r with
  | error e => simp at h
  | ok pair =>
    obtain ⟨cfg, dct⟩ := pair
    dsimp only at h
    cases hjs : cfg.assetsJs with
    | none => rw [hjs] at h; simp at h
    | some js =>
      rw [hjs] at h
      dsimp only at h
      rcases hpr : processRecords env dct ("http:".toList ++ js)
          ((dctLookup urlKey dct).getD []) 0
          { st2 with title := (cfg.args.map ArgsObject.title).getD none }
          with ⟨r2, ev2⟩
      rw [hpr] at h
      dsimp only at h
      simp only [Prod.mk.injEq] at h
      obtain ⟨hr2, hev⟩ := h
      subst hev
      obtain ⟨hv, hu⟩ := processRecords_ok_spec env dct ("http:".toList ++ js)
        ((dctLookup urlKey dct).getD []) 0 _ st' ev2 (by rw [hpr, hr2])
      rw [hst2] at hv hu
      constructor
      · rw [addedVideos_append, hev1]
        exact hv
      · exact hu

/-- The concrete environment of the `from_url_appends_videos` witness:
one fully signed itag-22 record. -/
def envG : Env :=
  { pageResponse := some ("ytplayer.config = {}".toList),
    jsResponse := none,
    jsonLoads := fun _ => some
      { args := some
          { title := some ("T".toList),
            url_encoded_fmt_stream_map :=
              some ("url=a%3Fitag%3D22%26signature%3Dzz".toList) },
        assetsJs := some ("//g".toList) },
    interp := fun _ _ _ => none,
    safe_filename := fun _ => "file".toList }

/-- A session that already holds one resolved video. -/
def stOld : YouTubeState :=
  { initialState with _videos :=
      [mkVideo ("old".toList) ("f".toList)
        ["flv", "240p", "Sorenson H.263", "N/A", "0.25", "MP3", "64"]] }

/-- The state produced by re-resolving on top of `stOld`. -/
def fromUrlResultState : YouTubeState :=
  match (from_url envG stOld ("u2".toList)).1 with
  | Except.ok s => s
  | _ => initialState

/-- Witness for `from_url_appends_videos`: re-resolving on a session
with one existing video succeeds and yields a collection that is a
permutation of the old video plus the newly added ones. -/
theorem from_url_appends_videos_witness :
    from_url envG stOld ("u2".toList) =
      (Except.ok fromUrlResultState, (from_url envG stOld ("u2".toList)).2) ∧
    fromUrlResultState._videos.Perm
      (stOld._videos ++ addedVideos (from_url envG stOld ("u2".toList)).2) ∧
    fromUrlResultState._video_url = some ("u2".toList) := by
  have h : from_url envG stOld ("u2".toList) =
      (Except.ok fromUrlResultState, (from_url envG stOld ("u2".toList)).2) := by
    rfl
  have hthm := from_url_appends_videos envG stOld ("u2".toList)
    fromUrlResultState _ h
  exact ⟨h, hthm.1, hthm.2⟩

/-- C9: within one resolution session the cipher script text is fetched
at most once and cached: (a) `_get_cipher` on a session whose cache
already holds a non-empty script text reuses the cached text — same
result, unchanged state, and no fetch; (b) a whole `from_url` call
starting with an unfetched cache (`_js_code = False`) emits at most one
script-fetch event across all its cipher resolutions. -/
theorem cipher_fetch_once :
    (∀ env st signature url c cs, st._js_code = some (c :: cs) →
      get_cipher env st signature url =
        (cipherTry env (c :: cs) signature, st, [])) ∧
    (∀ env st url, st._js_code = none →
      ((from_url env st url).2.count Event.fetchJs) ≤ 1) := by
  refine ⟨fun env st signature url c cs h =>
    get_cipher_cached env st signature url c cs h, ?_⟩
  intro env st url h
  have hpage : ([Event.fetchPage].count Event.fetchJs) = 0 := by decide
  unfold from_url
  dsimp only
  rcases hgvd : get_video_data env
      { st with _video_url := some url, _filename := none } with ⟨r, st2, ev1⟩
  obtain ⟨hst2, hev1⟩ := get_video_data_eq_shape env _ hgvd
  cases r with
  | error e =>
    dsimp only
    rw [hev1, hpage]
    omega
  | ok pair =>
    obtain ⟨cfg, dct⟩ := pair
    dsimp only
    cases cfg.assetsJs with
    | none =>
      rw [hev1, hpage]
      omega
    | some js =>
      dsimp only
      rcases hpr : processRecords env dct ("http:".toList ++ js)
          ((dctLookup urlKey dct).getD []) 0
          { st2 with title := (cfg.args.map ArgsObject.title).getD none }
          with ⟨r2, ev2⟩
      dsimp only
      have hc : ev2.count Event.fetchJs ≤
          jsFuel { st2 with title := (cfg.args.map ArgsObject.title).getD none } := by
        have hcc := processRecords_fetch_count env dct ("http:".toList ++ js)
          ((dctLookup urlKey dct).getD []) 0
          { st2 with title := (cfg.args.map ArgsObject.title).getD none }
        rw [hpr] at hcc
        exact hcc
      have hfuel : jsFuel
          { st2 with title := (cfg.args.map ArgsObject.title).getD none } = 1 := by
        unfold jsFuel
        dsimp only
        rw [hst2]
        dsimp only
        rw [h]
      rw [hev1]
      simp only [List.count_append, hpage]
      omega

/-- The concrete environment of the `cipher_fetch_once` witness: two
records, both lacking a literal signature, so both need the cipher; one
script fetch serves both. -/
def envC9 : Env :=
  { pageResponse := some ("ytplayer.config = {}".toList),
    jsResponse := some ("x.sig||f9(".toList),
    jsonLoads := fun _ => some
      { args := some
          { title := some ("T".toList),
            url_encoded_fmt_stream_map :=
              some ("url=a%3Fitag%3D22&s=S1,url=b%3Fitag%3D18&s=S2".toList) },
        assetsJs := some ("//j".toList) },
    interp := fun _ _ s => some s,
    safe_filename := fun _ => "file".toList }

/-- Witness for `cipher_fetch_once`: (a) at a concrete cached session
state, and (b) on a fresh session resolving two cipher-needing records
through `envC9` — at most one script fetch in total. -/
theorem cipher_fetch_once_witness :
    get_cipher envC9
        { initialState with _js_code := some ('.' :: "sig||f9(".toList) }
        ("SS".toList) ("ju".toList) =
      (cipherTry envC9 ('.' :: "sig||f9(".toList) ("SS".toList),
        { initialState with _js_code := some ('.' :: "sig||f9(".toList) }, []) ∧
    ((from_url envC9 initialState ("u".toList)).2.count Event.fetchJs) ≤ 1 :=
  ⟨cipher_fetch_once.1 envC9
      { initialState with _js_code := some ('.' :: "sig||f9(".toList) }
      ("SS".toList) ("ju".toList) '.' ("sig||f9(".toList) rfl,
   cipher_fetch_once.2 envC9 initialState ("u".toList) rfl⟩

end Pytube
